import Mathlib

/-!
Verification of the DenIM core (deniable instant messaging) against its Rust
sources. Shallow embedding conventions:

* Byte vectors (`Vec<u8>`) are `List Nat`; machine integers `usize` are `Nat`
  and `i32` ranks are `Int` (ranks stay far from the 32-bit boundary in every
  statement below, so no modular reduction is involved).
* The deterministic binary encoding (bincode) of a chunk list is captured by
  its length only: a `Vec` costs an 8-byte length prefix and each chunk costs
  a 4-byte `i32` flag plus an 8-byte prefix for its own byte vector.  These
  two constants are the protocol constants pinned by the repository tests in
  `common/src/deniable/chunk.rs`.
* Fallible Rust code becomes `Option`: `None` models an error return or a
  panic (`unwrap` on an underflowing `usize` subtraction, `unreachable!`,
  `expect`).  Rust's debug-mode semantics is used for arithmetic underflow.
* The floating point expression `(regular_payload_size * q).ceil() as usize`
  is embedded as exact rational ceiling; every concrete instance used below
  multiplies to an integer, where the two agree.
-/

namespace Denim

/-- Serialized size of an empty chunk list.  Modelled from the spec:
`common/src/deniable/constants.rs` is not in the sources; §4.1 names
`empty_vec_overhead` as a protocol constant pinned by tests, and the bincode
encoding gives an 8-byte length prefix for an empty `Vec<DenimChunk>`. -/
def EMPTY_VEC_SIZE : Nat := 8

/-- Serialized size of an empty chunk.  Modelled from the spec:
`common/src/deniable/constants.rs` is not in the sources; §4.1 names
`empty_chunk_overhead` as a protocol constant pinned by tests
(`empty_chunk_size_checker`), and bincode serializes an empty `DenimChunk`
as an 8-byte vector prefix plus a 4-byte `i32` flag. -/
def EMPTY_DENIMCHUNK_SIZE : Nat := 12

/-- `DenimChunk` from `common/src/web_api`: a slice of deniable payload bytes
together with an `i32` flag (1 = Dummy, 2 = Final, non-positive = Data rank). -/
structure DenimChunk where
  chunk : List Nat
  flags : Int
deriving DecidableEq, Repr

/-- Modelled from the spec: `DenimChunk::is_dummy` lives in the absent
`web_api` module; §6 fixes flag 1 = Dummy. -/
def DenimChunk.isDummy (c : DenimChunk) : Bool := c.flags = 1

/-- Modelled from the spec: `DenimChunk::is_final` lives in the absent
`web_api` module; §6 fixes flag 2 = Final. -/
def DenimChunk.isFinal (c : DenimChunk) : Bool := c.flags = 2

/-- `PayloadData` from `common/src/web_api`: pending payload bytes together
with the running chunk counter (the next Data rank). -/
structure PayloadData where
  chunk : List Nat
  flags : Int
deriving DecidableEq, Repr

/-- `ChunkType` from `common/src/deniable/chunk.rs`. -/
inductive ChunkType where
  | Data (rank : Int)
  | Dummy
  | Final
deriving DecidableEq, Repr

/-- `impl From<ChunkType> for i32` in `common/src/deniable/chunk.rs`. -/
def ChunkType.toFlags : ChunkType → Int
  | .Dummy => 1
  | .Final => 2
  | .Data value => value

/-- `impl From<i32> for ChunkType` in `common/src/deniable/chunk.rs`:
`1 => Dummy, 2 => Final, ..=0 => Data(value), _ => unreachable!()`.
The `unreachable!()` arm aborts the program; it is embedded as `none`. -/
def chunkTypeOfFlags (value : Int) : Option ChunkType :=
  if value = 1 then some .Dummy
  else if value = 2 then some .Final
  else if value ≤ 0 then some (.Data value)
  else none

/-- Serialized (bincode) size of one chunk: fixed overhead plus payload bytes,
as pinned by `dummy_chunk_size_checker` and `nonempty_chunk_size_checker`. -/
def serializedChunkSize (c : DenimChunk) : Nat :=
  EMPTY_DENIMCHUNK_SIZE + c.chunk.length

/-- Serialized (bincode) size of a chunk list: vector overhead plus the sizes
of the member chunks, as pinned by `denim_array_with_empty_chunk_size_checker`. -/
def serializedChunksSize (cs : List DenimChunk) : Nat :=
  EMPTY_VEC_SIZE + (cs.map serializedChunkSize).sum

/-- `(regular_payload_size * q).ceil() as usize` — the total deniable byte
budget of one overt envelope (the Rust sources compute this in `f32`; the
embedding uses exact rational arithmetic). -/
def totalFreeSpace (q size : ℚ) : Nat := (⌈size * q⌉ : ℤ).toNat

/-- Loop body of `Chunker::create_chunks` (`common/src/deniable/chunk.rs`,
lines 44–87).  The outgoing buffer is the ordered list of pending payload
byte vectors (`get_outgoing_message` yields the head, `set_outgoing_message`
rewrites it, `remove_outgoing_message` drops it).  The free-space counter is
threaded directly: the source recomputes
`free_space = total_free_space - serialize(&outgoing_chunks).len()`, and since
each pushed chunk grows the serialization by exactly
`EMPTY_DENIMCHUNK_SIZE + chunk.len()`, the recomputation equals
`free_space - (EMPTY_DENIMCHUNK_SIZE + chunk.len())` (`Nat.sub_sub`); lemma
`createChunksLoop_budget` below re-establishes the source's accounting.
Note the source emits every Data chunk with the hard-coded rank
`ChunkType::Data(0)`. -/
def createChunksLoop (buf : List (List Nat)) (free : Nat) :
    List DenimChunk × Nat × List (List Nat) :=
  if _h : EMPTY_DENIMCHUNK_SIZE ≤ free then
    let chunkSize := free - EMPTY_DENIMCHUNK_SIZE
    let msg := buf.headD []
    if msg ≠ [] ∧ chunkSize ≠ 0 then
      if msg.length ≤ chunkSize then
        let rest := createChunksLoop buf.tail (free - (EMPTY_DENIMCHUNK_SIZE + msg.length))
        (⟨msg, (ChunkType.Final).toFlags⟩ :: rest.1, rest.2)
      else
        let rest := createChunksLoop (msg.drop chunkSize :: buf.tail)
          (free - (EMPTY_DENIMCHUNK_SIZE + chunkSize))
        (⟨msg.take chunkSize, (ChunkType.Data 0).toFlags⟩ :: rest.1, rest.2)
    else
      let rest := createChunksLoop buf (free - (EMPTY_DENIMCHUNK_SIZE + chunkSize))
      (⟨List.replicate chunkSize 0, (ChunkType.Dummy).toFlags⟩ :: rest.1, rest.2)
  else ([], free, buf)
termination_by free
decreasing_by
  all_goals simp only [EMPTY_DENIMCHUNK_SIZE] at *
  all_goals omega

/-- `Chunker::create_chunks`: compute the total budget's remainder after the
empty-vector overhead and run the chunking loop.  When the budget is below
`EMPTY_VEC_SIZE` the source's `usize` subtraction underflows (a debug-mode
panic), embedded as `none`. -/
def createChunks (totalFree : Nat) (buf : List (List Nat)) :
    Option (List DenimChunk × Nat × List (List Nat)) :=
  if EMPTY_VEC_SIZE ≤ totalFree then
    some (createChunksLoop buf (totalFree - EMPTY_VEC_SIZE))
  else none

/-- Driver for repeated `Chunker::create_chunks` invocations (one overt
envelope per budget), with the emitted chunks concatenated in emission order.
This is how `Client::send_message` drains the outgoing buffer across
successive envelopes. -/
def createChunksCalls : List Nat → List (List Nat) →
    Option (List DenimChunk × List (List Nat))
  | [], buf => some ([], buf)
  | t :: ts, buf =>
    match createChunks t buf with
    | none => none
    | some (cs, _, buf') =>
      (createChunksCalls ts buf').map fun r => (cs ++ r.1, r.2)

/-- Loop body of `Chunker::create_ordered_chunks`
(`common/src/deniable/chunk.rs`, lines 90–142).  Identical control flow to
`createChunksLoop` but over a single `PayloadData`, and the Data rank is the
running counter `payload_data_count`, decremented after each Data chunk. -/
def orderedLoop (payload : List Nat) (count : Int) (free : Nat) :
    List DenimChunk × Nat × PayloadData :=
  if _h : EMPTY_DENIMCHUNK_SIZE ≤ free then
    let chunkSize := free - EMPTY_DENIMCHUNK_SIZE
    if payload ≠ [] ∧ chunkSize ≠ 0 then
      if payload.length ≤ chunkSize then
        let rest := orderedLoop [] count (free - (EMPTY_DENIMCHUNK_SIZE + payload.length))
        (⟨payload, (ChunkType.Final).toFlags⟩ :: rest.1, rest.2)
      else
        let rest := orderedLoop (payload.drop chunkSize) (count - 1)
          (free - (EMPTY_DENIMCHUNK_SIZE + chunkSize))
        (⟨payload.take chunkSize, (ChunkType.Data count).toFlags⟩ :: rest.1, rest.2)
    else
      let rest := orderedLoop payload count (free - (EMPTY_DENIMCHUNK_SIZE + chunkSize))
      (⟨List.replicate chunkSize 0, (ChunkType.Dummy).toFlags⟩ :: rest.1, rest.2)
  else ([], free, ⟨payload, count⟩)
termination_by free
decreasing_by
  all_goals simp only [EMPTY_DENIMCHUNK_SIZE] at *
  all_goals omega

/-- `Chunker::create_ordered_chunks`: returns the emitted chunks, the residual
free space, and the pending payload data to be chunked later.  `none` models
the debug-mode underflow panic when the budget is below `EMPTY_VEC_SIZE`. -/
def createOrderedChunks (totalFree : Nat) (payload : PayloadData) :
    Option (List DenimChunk × Nat × PayloadData) :=
  if EMPTY_VEC_SIZE ≤ totalFree then
    some (orderedLoop payload.chunk payload.flags (totalFree - EMPTY_VEC_SIZE))
  else none

/-- Driver for repeated `Chunker::create_ordered_chunks` invocations over the
budgets of successive overt envelopes, threading the pending payload data and
concatenating the chunks in emission order (the pattern of
`create_payload_chunks` in the `denim_manager` tests). -/
def chunkWithBudgets : List Nat → PayloadData →
    Option (List DenimChunk × PayloadData)
  | [], p => some ([], p)
  | t :: ts, p =>
    match createOrderedChunks t p with
    | none => none
    | some (cs, _, p') =>
      (chunkWithBudgets ts p').map fun r => (cs ++ r.1, r.2)

/-- Modelled from the spec: the derived `Ord` of `DenimChunk` lives in the
absent `web_api` module; §4.1 requires reassembly to sort buffered Data
chunks by flag rank with rank 0 first, then −1, then −2 — i.e. by descending
flag value. -/
def chunkOrder (a b : DenimChunk) : Prop := b.flags ≤ a.flags

instance : DecidableRel chunkOrder := fun a b => by
  unfold chunkOrder; infer_instance

/-- `pending_chunks.sort()` / `chunks.sort()` — Rust's stable sort under the
(spec-modelled) rank-descending chunk order. -/
def sortChunks (cs : List DenimChunk) : List DenimChunk :=
  List.insertionSort chunkOrder cs

/-- Loop of `DenIMManager::create_deniable_payloads`
(`server/src/managers/denim/denim_manager.rs`, lines 205–230): classify each
chunk; Dummy is skipped, Data is buffered, Final sorts the buffer,
concatenates its payloads followed by the Final's payload and records the
result (the `bincode::deserialize` of the reassembled bytes is left at byte
level).  A flag outside the `ChunkType` domain aborts (`none`).  The returned
leftover chunks are the buffered Data chunks never terminated by a Final. -/
def createDeniablePayloadsLoop (pending : List DenimChunk) :
    List DenimChunk → Option (List (List Nat) × List DenimChunk)
  | [] => some ([], pending)
  | c :: rest =>
    match chunkTypeOfFlags c.flags with
    | some .Dummy => createDeniablePayloadsLoop pending rest
    | some .Final =>
      let payloadData := ((sortChunks pending).map DenimChunk.chunk).flatten ++ c.chunk
      (createDeniablePayloadsLoop [] rest).map fun r => (payloadData :: r.1, r.2)
    | some (.Data _) => createDeniablePayloadsLoop (pending ++ [c]) rest
    | none => none

/-- `DenIMManager::create_deniable_payloads`. -/
def createDeniablePayloads (chunks : List DenimChunk) :
    Option (List (List Nat) × List DenimChunk) :=
  createDeniablePayloadsLoop [] chunks

/-- Loop of `Client::handle_incoming_chunks` (`client/src/client.rs`, lines
621–664): non-final chunks are appended to the buffer; a Final sorts the
buffer, appends itself, and flattens the payload bytes (the deserialization
is left at byte level).  Returns the decoded payload byte lists and the
chunks left in the buffer (which the source stores back). -/
def handleIncomingChunksLoop (chunks : List DenimChunk) :
    List DenimChunk → List (List Nat) × List DenimChunk
  | [] => ([], chunks)
  | c :: rest =>
    if c.isFinal then
      let sorted := sortChunks chunks
      let deniableBytes := ((sorted ++ [c]).map DenimChunk.chunk).flatten
      let r := handleIncomingChunksLoop [] rest
      (deniableBytes :: r.1, r.2)
    else handleIncomingChunksLoop (chunks ++ [c]) rest

/-- `Client::handle_incoming_chunks`: the persisted incoming chunks are
drained only when some new chunk is Final, then the loop above runs over the
new chunks. -/
def handleIncomingChunks (stored newChunks : List DenimChunk) :
    List (List Nat) × List DenimChunk :=
  let chunks := if newChunks.any DenimChunk.isFinal then stored else []
  handleIncomingChunksLoop chunks newChunks

/-! ### The server buffer store (`server/src/storage/redis.rs`)

A queue is the redis sorted set holding entries
`"{entry_id}:{base64(payload)}:{rank}"` scored by `entry_id`, together with
the persist lock.  The base64 round trip is elided (entries carry the decoded
triple), and the `field_guid ↔ entry_id` sibling hashes are elided:
`dequeue_bytes` resolves the head's guid through the reverse hash only to
remove that same head entry. -/

/-- One stored value `"{entry_id}:{base64(payload)}:{rank}"`. -/
structure RedisEntry where
  id : Nat
  payload : List Nat
  rank : Int
deriving DecidableEq, Repr

/-- A redis queue: entries in score (= `entry_id`) order, plus the persist
lock (`queue_lock_key` present or not). -/
structure RQueue where
  entries : List RedisEntry
  locked : Bool
deriving DecidableEq, Repr

/-- `get_first` (`redis.rs`, lines 380–406): error (`none`) when the lock key
is set or the queue is empty, otherwise the entry at index 0. -/
def getFirst (queue : RQueue) : Option RedisEntry :=
  if queue.locked then none else queue.entries.head?

/-- `update_value` (`redis.rs`, lines 408–456): fail on a non-existent score,
otherwise replace the entry at score `fieldId` by the new bytes with the rank
advanced by −1 (`ZREM` old member, `ZADD` new member at the same score), and
return the OLD rank. -/
def updateValue (queue : RQueue) (fieldId : Nat) (newValue : List Nat) :
    Option (RQueue × Int) :=
  match queue.entries.find? (fun e => e.id == fieldId) with
  | none => none
  | some e =>
    let newEntries := queue.entries.map fun o =>
      if o.id == fieldId then ⟨fieldId, newValue, e.rank - 1⟩ else o
    some (⟨newEntries, queue.locked⟩, e.rank)

/-- `remove` (`redis.rs`, lines 189–274) specialised to the one guid that
`dequeue_bytes` resolves for the head entry: delete the entry with the given
score and return the removed payloads.  (Queue deregistration bookkeeping is
not modelled.) -/
def removeEntry (queue : RQueue) (fieldId : Nat) : RQueue × List (List Nat) :=
  (⟨queue.entries.filter (fun e => !(e.id == fieldId)), queue.locked⟩,
   (queue.entries.filter (fun e => e.id == fieldId)).map RedisEntry.payload)

/-- `dequeue_bytes` (`redis.rs`, lines 327–378): an error from `get_first`
(lock set or empty queue) yields `(vec![], 0, Dummy)`; a head longer than the
request is split, rewritten with rank − 1, and the taken prefix returned with
the old rank as a Data flag; otherwise the whole head is removed and returned
with the Final flag. -/
def dequeueBytes (queue : RQueue) (bytesAmount : Nat) :
    Option ((List Nat × Nat × Int) × RQueue) :=
  match getFirst queue with
  | none => some (([], 0, (ChunkType.Dummy).toFlags), queue)
  | some first =>
    let value := first.payload
    if bytesAmount < value.length then
      match updateValue queue first.id (value.drop bytesAmount) with
      | none => none
      | some (queue', order) =>
        some (((value.take bytesAmount), (value.take bytesAmount).length,
          (ChunkType.Data order).toFlags), queue')
    else
      let r := removeEntry queue first.id
      some ((r.2.flatten, r.2.flatten.length, (ChunkType.Final).toFlags), r.1)

/-- `PayloadCache::take_values` = `DenIMManager::dequeue_payload_data`: loop
dequeueing up to the remaining request from the head until nothing comes
back, collecting `(bytes, flag)` pairs. -/
def takeValues (queue : RQueue) (dataSize : Nat) :
    Option (List (List Nat × Int) × RQueue) :=
  if _h : dataSize = 0 then some ([], queue)
  else
    match dequeueBytes queue dataSize with
    | none => none
    | some ((data, taken, order), queue') =>
      if _t : taken = 0 then some ([], queue')
      else
        (takeValues queue' (dataSize - taken)).map fun r =>
          ((data, order) :: r.1, r.2)
termination_by dataSize
decreasing_by omega

/-! ### DenIM envelopes -/

/-- The wire `DenimMessage` (only the fields the claims concern: the chunk
list, the optional broadcast q and the zero-filled ballast). -/
structure DenimMessage where
  chunks : List DenimChunk
  q : Option ℚ
  ballast : List Nat
deriving DecidableEq, Repr

/-- The DenIM envelope built by `Client::send_message` (`client/src/client.rs`,
lines 370–407) around one encrypted overt payload whose budget is
`totalFree`: chunks from `Chunker::create_chunks` against the deniable
sending buffer, `q: None`, and `ballast: vec![0; residual s]`. -/
def clientSendMessageEnvelope (totalFree : Nat) (buf : List (List Nat)) :
    Option (DenimMessage × List (List Nat)) :=
  (createChunks totalFree buf).map fun r => (⟨r.1, none, List.replicate r.2.1 0⟩, r.2.2)

/-- `DenIMManager::create_denim_message`
(`server/src/managers/denim/denim_manager.rs`, lines 55–73): the free space
is `get_free_space_in_bytes` (modelled from the spec §4.4 as
⌈|overt| · q⌉ — the `Chunker { q }` helper is in the absent part of the
`common` crate), the chunks are the raw `(bytes, flag)` pairs dequeued from
the receiver's payload queue, `q` is attached, and the ballast is
`Vec::new()`. -/
def serverCreateDenimMessage (q size : ℚ) (queue : RQueue) :
    Option (DenimMessage × RQueue) :=
  (takeValues queue (totalFreeSpace q size)).map fun r =>
    (⟨r.1.map fun v => ⟨v.1, v.2⟩, some q, []⟩, r.2)

/-! ### Client protocol stores (`client/src/storage/generic.rs` layout as used
by `client/src/client.rs`)

The double-ratchet library is the black box of spec §1: each encrypt/decrypt
is parametrised by one abstract update function per `&mut` store reference
the source passes to it, over an arbitrary store-state type `S`. -/

/-- The client's `ProtocolStore` components named in `client.rs`: the overt
session/identity stores, the deniable session/identity stores, and the
pre-key stores. -/
structure ProtocolStore (S : Type) where
  identityKeyStore : S
  sessionStore : S
  deniableIdentityKeyStore : S
  deniableStore : S
  preKeyStore : S
  signedPreKeyStore : S
  kyberPreKeyStore : S
deriving DecidableEq, Repr

/-- `Client::send_message` encrypts with
`encrypt(&mut identity_key_store, &mut session_store, ...)`
(`client.rs`, lines 361–368). -/
def sendMessageEncrypt {S : Type} (upIdentity upSession : S → S)
    (st : ProtocolStore S) : ProtocolStore S :=
  { st with
    identityKeyStore := upIdentity st.identityKeyStore
    sessionStore := upSession st.sessionStore }

/-- `Client::send_deniable_message` encrypts with
`encrypt(&mut deniable_identity_key_store, &mut deniable_store, ...)`
(`client.rs`, lines 465–474). -/
def sendDeniableMessageEncrypt {S : Type} (upIdentity upSession : S → S)
    (st : ProtocolStore S) : ProtocolStore S :=
  { st with
    deniableIdentityKeyStore := upIdentity st.deniableIdentityKeyStore
    deniableStore := upSession st.deniableStore }

/-- The overt decrypt in `Client::receive_message`
(`client.rs`, lines 534–545): `Envelope::decrypt` receives the overt session
and identity stores and the three shared pre-key stores. -/
def receiveMessageOvertDecrypt {S : Type}
    (upSession upIdentity upPreKey upSignedPreKey upKyberPreKey : S → S)
    (st : ProtocolStore S) : ProtocolStore S :=
  { st with
    sessionStore := upSession st.sessionStore
    identityKeyStore := upIdentity st.identityKeyStore
    preKeyStore := upPreKey st.preKeyStore
    signedPreKeyStore := upSignedPreKey st.signedPreKeyStore
    kyberPreKeyStore := upKyberPreKey st.kyberPreKeyStore }

/-- The deniable decrypt in `Client::receive_message`
(`client.rs`, lines 558–570): `Envelope::decrypt` receives the deniable
session and identity stores and the SAME three pre-key stores that the overt
decrypt uses. -/
def receiveMessageDeniableDecrypt {S : Type}
    (upSession upIdentity upPreKey upSignedPreKey upKyberPreKey : S → S)
    (st : ProtocolStore S) : ProtocolStore S :=
  { st with
    deniableStore := upSession st.deniableStore
    deniableIdentityKeyStore := upIdentity st.deniableIdentityKeyStore
    preKeyStore := upPreKey st.preKeyStore
    signedPreKeyStore := upSignedPreKey st.signedPreKeyStore
    kyberPreKeyStore := upKyberPreKey st.kyberPreKeyStore }

/-! ### Server-side payload routing (`server/src/server/server.rs`,
`handle_receiving_chunks`, lines 225–291)

Accounts, prekey-bundle resolution (`KeyManager::handle_get_keys_id_device_id`)
and envelope construction (`SignalMessage::to_envelope`) are abstracted to
their routing-relevant content. -/

/-- A registered account: its service id and its device ids. -/
structure SAccount where
  serviceId : String
  devices : List Nat
deriving DecidableEq, Repr

/-- The deniable payload variants the server routes. -/
inductive SDeniablePayload where
  | signalMessage (destinationServiceId : Option String) (content : List Nat)
  | envelope (sourceServiceId : String) (content : List Nat)
  | keyRequest (serviceId : String)
  | keyResponse (bundle : Nat)
deriving DecidableEq, Repr

/-- `account_payloads_map.entry(account).or_insert_with(Vec::new).push(p)`:
append to the account's pending list, creating it on first touch. -/
def pushPayload (m : List (SAccount × List SDeniablePayload)) (acc : SAccount)
    (p : SDeniablePayload) : List (SAccount × List SDeniablePayload) :=
  match m with
  | [] => [(acc, [p])]
  | (a, ps) :: rest =>
    if a = acc then (a, ps ++ [p]) :: rest else (a, ps) :: pushPayload rest acc p

/-- The payload classification loop of `handle_receiving_chunks`:
a reassembled `KeyRequest(target)` resolves a prekey bundle for `target` and
records the `KeyResponse` under the SENDER's account; a reassembled
`SignalMessage` is wrapped as an Envelope and recorded under the destination
account looked up from the message's own `destination_service_id` (a missing
destination or an unknown account is an abort/error, `none`); any other
payload is logged and skipped. -/
def routePayloads (sender : SAccount) (resolveBundle : String → Nat)
    (lookupAccount : String → Option SAccount)
    (m : List (SAccount × List SDeniablePayload)) :
    List SDeniablePayload → Option (List (SAccount × List SDeniablePayload))
  | [] => some m
  | p :: rest =>
    match p with
    | .keyRequest targetServiceId =>
      routePayloads sender resolveBundle lookupAccount
        (pushPayload m sender (.keyResponse (resolveBundle targetServiceId))) rest
    | .signalMessage destinationServiceId content =>
      match destinationServiceId with
      | none => none
      | some dst =>
        match lookupAccount dst with
        | none => none
        | some receiverAccount =>
          routePayloads sender resolveBundle lookupAccount
            (pushPayload m receiverAccount (.envelope sender.serviceId content)) rest
    | _ => routePayloads sender resolveBundle lookupAccount m rest

/-- The receiver-role outgoing payload buffers, keyed by
`(service id, device id)`. -/
def PayloadQueues : Type := List ((String × Nat) × List SDeniablePayload)

/-- Read the buffer of one address (empty when absent). -/
def queueOf (qs : PayloadQueues) (key : String × Nat) : List SDeniablePayload :=
  match qs with
  | [] => []
  | (k, ps) :: rest => if k = key then ps else queueOf rest key

/-- `DenIMManager::set_deniable_payloads` for one address: append the
payloads to that address's buffer. -/
def enqueueAt (qs : PayloadQueues) (key : String × Nat)
    (ps : List SDeniablePayload) : PayloadQueues :=
  match qs with
  | [] => [(key, ps)]
  | (k, existing) :: rest =>
    if k = key then (k, existing ++ ps) :: rest else (k, existing) :: enqueueAt rest key ps

/-- The distribution loop of `handle_receiving_chunks` (lines 283–291): for
each routed account, enqueue its payload list into the receiver-role buffer
of every one of its devices. -/
def distributePayloads (qs : PayloadQueues) :
    List (SAccount × List SDeniablePayload) → PayloadQueues
  | [] => qs
  | (account, ps) :: rest =>
    distributePayloads
      (account.devices.foldl
        (fun acc d => enqueueAt acc (account.serviceId, d) ps) qs) rest

/-- `handle_receiving_chunks` from the reassembled deniable payloads onward:
classify and route each payload, then distribute per device. -/
def handleReceivingChunksRoute (sender : SAccount) (resolveBundle : String → Nat)
    (lookupAccount : String → Option SAccount) (qs : PayloadQueues)
    (payloads : List SDeniablePayload) : Option PayloadQueues :=
  (routePayloads sender resolveBundle lookupAccount [] payloads).map
    (distributePayloads qs)

/-! ### Client deniable state (`client/src/client.rs` +
`client/src/storage/device.rs`)

The SQLite tables behind `Device` become lists in insertion order; the
encryption of an outgoing deniable message is kept at the routing level (one
device per contact, so `encrypt` yields one `SignalMessage` payload). -/

/-- A client-side outgoing deniable payload. -/
inductive CDeniablePayload where
  | keyRequest (serviceId : String)
  | signalMessage (destinationServiceId : String) (content : String)
deriving DecidableEq, Repr

/-- The client state the deniable bootstrap touches: the `DeniablePayload`
outgoing queue, the `DeniableKeyRequestsSent` table (service id ↦ nickname), the
`DeniableMessageAwaitingEncryption` table ((message, nickname) rows), the
`DeniableDeviceSessionStore` keys, and the nickname table (nickname ↦ service
id). -/
structure ClientState where
  deniablePayloads : List CDeniablePayload
  keyRequestsSent : List (String × String)
  messagesAwaitingEncryption : List (String × String)
  deniableSessions : List String
  contacts : List (String × String)
deriving DecidableEq, Repr

/-- `Device::try_get_key_request_sent`. -/
def tryGetKeyRequestSent (st : ClientState) (serviceId : String) : Option String :=
  (st.keyRequestsSent.find? (fun e => e.1 == serviceId)).map Prod.snd

/-- `Client::add_deniable_contact_and_queue_message` (`client.rs`, lines
710–756): when no key request is recorded for the service id, serialize and
enqueue a `KeyRequest` payload and record `(service id, nickname)`; always stash
the plaintext in the awaiting-encryption table. -/
def addDeniableContactAndQueueMessage (st : ClientState) (serviceId text nickname : String) :
    ClientState :=
  let st1 :=
    if (tryGetKeyRequestSent st serviceId).isNone then
      { st with
        deniablePayloads := st.deniablePayloads ++ [.keyRequest serviceId]
        keyRequestsSent := st.keyRequestsSent ++ [(serviceId, nickname)] }
    else st
  { st1 with
    messagesAwaitingEncryption := st1.messagesAwaitingEncryption ++ [(text, nickname)] }

/-- `Client::send_deniable_message` (`client.rs`, lines 429–505): resolve the
service id by nickname (an unknown nickname is a database error), encrypt under
the deniable ratchet and enqueue the serialized `SignalMessage` payload. -/
def sendDeniableMessageEnqueue (st : ClientState) (text nickname : String) :
    Option ClientState :=
  match (st.contacts.find? (fun e => e.1 == nickname)).map Prod.snd with
  | none => none
  | some serviceId =>
    some { st with
      deniablePayloads := st.deniablePayloads ++ [.signalMessage serviceId text] }

/-- Modelled from the spec: the `send_deniable` dispatch of §4.7 (the caller
deciding between the established-session path and the bootstrap path is not
in the sources): with a deniable session the message is encrypted and
enqueued, otherwise `add_deniable_contact_and_queue_message` runs. -/
def sendDeniable (st : ClientState) (serviceId text nickname : String) :
    Option ClientState :=
  if serviceId ∈ st.deniableSessions then sendDeniableMessageEnqueue st text nickname
  else some (addDeniableContactAndQueueMessage st serviceId text nickname)

/-- `Client::add_contact` (`client.rs`, lines 666–708): a no-op when the
contact already exists, otherwise record the contact and its nickname. -/
def addContact (st : ClientState) (nickname serviceId : String) : ClientState :=
  if st.contacts.any (fun e => e.2 == serviceId) then st
  else { st with contacts := st.contacts ++ [(nickname, serviceId)] }

/-- The drain loop at the end of the `KeyResponse` arm: re-invoke
`send_deniable_message` for each stashed message in table order. -/
def drainAwaiting (nickname : String) (st : ClientState) :
    List String → Option ClientState
  | [] => some st
  | msg :: rest =>
    match sendDeniableMessageEnqueue st msg nickname with
    | none => none
    | some st' => drainAwaiting nickname st' rest

/-- The `DeniablePayload::KeyResponse` arm of `Client::receive_message`
(`client.rs`, lines 572–611): process the prekey bundles into the deniable
session store, look up the pending nickname (`expect` aborts when absent,
`none`), install the contact, clear the pending key request, and re-send
every message awaiting encryption for that nickname. -/
def receiveKeyResponse (st : ClientState) (serviceId : String) :
    Option ClientState :=
  let st1 := { st with deniableSessions := st.deniableSessions ++ [serviceId] }
  match tryGetKeyRequestSent st1 serviceId with
  | none => none
  | some nickname =>
    let st2 := addContact st1 nickname serviceId
    let st3 := { st2 with
      keyRequestsSent := st2.keyRequestsSent.filter (fun e => ¬ e.1 == serviceId) }
    let messages := (st3.messagesAwaitingEncryption.filter (fun e => e.2 == nickname)).map Prod.fst
    drainAwaiting nickname st3 messages

/-- The outcome of a Rust call site, distinguishing a panic (`expect`,
`unwrap`) from a typed error and from a normal return. -/
inductive RustOutcome (ε α : Type) where
  | panicked (msg : String)
  | err (e : ε)
  | ok (a : α)
deriving DecidableEq, Repr

/-- The q-reading step of `Client::receive_message` (`client.rs`, lines
511–523): `denim_msg.q.expect("q value should always be populated by
server")` — the current chunker q is not consulted as a fallback. -/
def receiveMessageSetQ (currentQ : ℚ) (envelopeQ : Option ℚ) :
    RustOutcome String ℚ :=
  match envelopeQ with
  | some q => .ok q
  | none => .panicked "q value should always be populated by server"

/-- The canonical Data chunk sequence of a payload split into `parts`,
carrying ranks `k, k − 1, k − 2, …` in emission order. -/
def rankedChunks : Int → List (List Nat) → List DenimChunk
  | _, [] => []
  | k, p :: ps => ⟨p, k⟩ :: rankedChunks (k - 1) ps

/-- A full chunking session: payloads enqueued in order, each fully consumed
by a run of `Chunker::create_ordered_chunks` invocations over the q-budgets
of successive overt envelope sizes, with all emitted chunks concatenated in
emission order. -/
inductive ChunkedQueue (q : ℚ) : List (List Nat) → List DenimChunk → Prop where
  | nil : ChunkedQueue q [] []
  | cons {payload : List Nat} {sizes : List ℚ} {cs : List DenimChunk}
      {pending : PayloadData} {ps : List (List Nat)} {rest : List DenimChunk} :
      payload ≠ [] →
      chunkWithBudgets (sizes.map (totalFreeSpace q)) ⟨payload, 0⟩ = some (cs, pending) →
      pending.chunk = [] →
      ChunkedQueue q ps rest →
      ChunkedQueue q (payload :: ps) (cs ++ rest)

/-! ### Helper lemmas -/

theorem chunkTypeOfFlags_of_nonpos {v : Int} (h : v ≤ 0) :
    chunkTypeOfFlags v = some (.Data v) := by
  unfold chunkTypeOfFlags
  rw [if_neg (by omega), if_neg (by omega), if_pos h]

theorem rankedChunks_append (a : List (List Nat)) :
    ∀ (k : Int) (b : List (List Nat)),
      rankedChunks k (a ++ b) = rankedChunks k a ++ rankedChunks (k - a.length) b := by
  induction a with
  | nil => intro k b; simp [rankedChunks]
  | cons p ps ih =>
    intro k b
    show (⟨p, k⟩ : DenimChunk) :: rankedChunks (k - 1) (ps ++ b) = _
    rw [ih (k - 1) b]
    have harg : k - 1 - (ps.length : Int) = k - ((p :: ps).length : Int) := by
      simp only [List.length_cons]
      push_cast
      ring
    rw [harg]
    rfl

theorem rankedChunks_flags_le (parts : List (List Nat)) :
    ∀ (k : Int) (c : DenimChunk), c ∈ rankedChunks k parts → c.flags ≤ k := by
  induction parts with
  | nil => intro k c hc; simp [rankedChunks] at hc
  | cons p ps ih =>
    intro k c hc
    rw [rankedChunks] at hc
    rcases List.mem_cons.mp hc with h | h
    · subst h; exact le_refl k
    · exact le_trans (ih (k - 1) c h) (by omega)

theorem rankedChunks_sorted (parts : List (List Nat)) :
    ∀ k : Int, List.Sorted chunkOrder (rankedChunks k parts) := by
  induction parts with
  | nil => intro k; simp [rankedChunks]
  | cons p ps ih =>
    intro k
    rw [rankedChunks, List.sorted_cons]
    refine ⟨?_, ih (k - 1)⟩
    intro c hc
    have := rankedChunks_flags_le ps (k - 1) c hc
    show c.flags ≤ k
    omega

theorem sortChunks_ranked (k : Int) (parts : List (List Nat)) :
    sortChunks (rankedChunks k parts) = rankedChunks k parts :=
  List.Sorted.insertionSort_eq (rankedChunks_sorted parts k)

theorem rankedChunks_map_chunk (k : Int) (parts : List (List Nat)) :
    (rankedChunks k parts).map DenimChunk.chunk = parts := by
  induction parts generalizing k with
  | nil => rfl
  | cons p ps ih => simp [rankedChunks, ih]

theorem rankedChunks_not_dummy {k : Int} (hk : k ≤ 0) {parts : List (List Nat)} :
    ∀ c ∈ rankedChunks k parts, c.isDummy = false := by
  intro c hc
  have := rankedChunks_flags_le parts k c hc
  simp only [DenimChunk.isDummy, decide_eq_false_iff_not]
  omega

/-- The free-space accounting of the `create_chunks` loop: the serialized
growth of the emitted chunks plus the returned residual equals the free space
the loop started from (this is the source's recomputation
`free_space = total_free_space - serialize(&outgoing_chunks).len()`). -/
theorem createChunksLoop_budget (buf : List (List Nat)) (free : Nat) :
    ((createChunksLoop buf free).1.map serializedChunkSize).sum +
      (createChunksLoop buf free).2.1 = free := by
  induction buf, free using createChunksLoop.induct with
  | case1 buf free h1 chunkSize msg h2 h3 ih =>
    rw [createChunksLoop]
    simp only [dif_pos h1, if_pos h2, if_pos h3, List.map_cons, List.sum_cons,
      serializedChunkSize] at ih ⊢
    simp only [msg, chunkSize] at *
    omega
  | case2 buf free h1 chunkSize msg h2 h3 ih =>
    rw [createChunksLoop]
    simp only [dif_pos h1, if_pos h2, if_neg h3, List.map_cons, List.sum_cons,
      serializedChunkSize, List.length_take] at ih ⊢
    simp only [msg, chunkSize] at *
    omega
  | case3 buf free h1 chunkSize msg h2 ih =>
    rw [createChunksLoop]
    simp only [dif_pos h1, if_neg h2, List.map_cons, List.sum_cons,
      serializedChunkSize, List.length_replicate] at ih ⊢
    simp only [msg, chunkSize] at *
    omega
  | case4 buf free h1 =>
    rw [createChunksLoop]
    simp [dif_neg h1]

/-- With an exhausted payload the `create_ordered_chunks` loop only emits
Dummy chunks and leaves the pending data untouched. -/
theorem orderedLoop_empty_payload :
    ∀ payload count free, payload = [] →
      (∀ c ∈ (orderedLoop payload count free).1, c.flags = 1) ∧
      (orderedLoop payload count free).2.2 = ⟨payload, count⟩ := by
  intro payload count free
  induction payload, count, free using orderedLoop.induct with
  | case1 payload count free h1 chunkSize h2 h3 ih =>
    intro hp
    exact absurd hp h2.1
  | case2 payload count free h1 chunkSize h2 h3 ih =>
    intro hp
    exact absurd hp h2.1
  | case3 payload count free h1 chunkSize h2 ih =>
    intro hp
    rw [orderedLoop]
    simp only [dif_pos h1, if_neg h2]
    refine ⟨?_, (ih hp).2⟩
    intro c hc
    rcases List.mem_cons.mp hc with h | h
    · subst h; rfl
    · exact (ih hp).1 c h
  | case4 payload count free h1 =>
    intro hp
    rw [orderedLoop]
    simp [dif_neg h1]

/-- Shape of one `create_ordered_chunks` invocation on a nonempty payload
with a non-positive rank counter: dropping Dummy chunks, the emission is a
canonical ranked Data prefix, terminated by a Final carrying the payload's
tail exactly when the pending data comes back empty. -/
theorem orderedLoop_trace :
    ∀ payload count free, payload ≠ [] → count ≤ 0 →
      (((orderedLoop payload count free).2.2.chunk = [] →
        ∃ parts tail, tail ≠ [] ∧
          (orderedLoop payload count free).1.filter (fun c => !c.isDummy) =
            rankedChunks count parts ++ [⟨tail, 2⟩] ∧
          parts.flatten ++ tail = payload) ∧
      ((orderedLoop payload count free).2.2.chunk ≠ [] →
        ∃ parts,
          (orderedLoop payload count free).1.filter (fun c => !c.isDummy) =
            rankedChunks count parts ∧
          parts.flatten ++ (orderedLoop payload count free).2.2.chunk = payload ∧
          (orderedLoop payload count free).2.2.flags = count - parts.length)) := by
  intro payload count free
  induction payload, count, free using orderedLoop.induct with
  | case1 payload count free h1 chunkSize h2 h3 ih =>
    intro hp hcount
    have hrest := orderedLoop_empty_payload [] count
      (free - (EMPTY_DENIMCHUNK_SIZE + payload.length)) rfl
    rw [orderedLoop]
    simp only [dif_pos h1, if_pos h2, if_pos h3, hrest.2]
    constructor
    · intro _
      refine ⟨[], payload, hp, ?_, by simp⟩
      rw [List.filter_cons]
      have hkept : (!DenimChunk.isDummy ⟨payload, ChunkType.Final.toFlags⟩) = true := by
        simp [DenimChunk.isDummy, ChunkType.toFlags]
      rw [if_pos hkept]
      have hnone : (orderedLoop [] count
          (free - (EMPTY_DENIMCHUNK_SIZE + payload.length))).1.filter
            (fun c => !c.isDummy) = [] := by
        rw [List.filter_eq_nil_iff]
        intro c hc
        simp [DenimChunk.isDummy, hrest.1 c hc]
      rw [hnone]
      rfl
    · intro hne
      exact absurd rfl hne
  | case2 payload count free h1 chunkSize h2 h3 ih =>
    intro hp hcount
    have hdrop : payload.drop chunkSize ≠ [] := by
      have : chunkSize < payload.length := by omega
      simp only [ne_eq, List.drop_eq_nil_iff]
      omega
    have ih' := ih hdrop (by omega)
    rw [orderedLoop]
    simp only [dif_pos h1, if_pos h2, if_neg h3]
    have hkept : (!DenimChunk.isDummy ⟨payload.take chunkSize,
        (ChunkType.Data count).toFlags⟩) = true := by
      simp only [DenimChunk.isDummy, ChunkType.toFlags, Bool.not_eq_true',
        decide_eq_false_iff_not]
      omega
    constructor
    · intro hchunk
      obtain ⟨parts, tail, htail, hfilter, hjoin⟩ := ih'.1 hchunk
      refine ⟨payload.take chunkSize :: parts, tail, htail, ?_, ?_⟩
      · rw [List.filter_cons, if_pos hkept, hfilter]
        rfl
      · simp only [List.flatten_cons, List.append_assoc, hjoin]
        exact List.take_append_drop chunkSize payload
    · intro hchunk
      obtain ⟨parts, hfilter, hjoin, hflags⟩ := ih'.2 hchunk
      refine ⟨payload.take chunkSize :: parts, ?_, ?_, ?_⟩
      · rw [List.filter_cons, if_pos hkept, hfilter]
        rfl
      · simp only [List.flatten_cons, List.append_assoc, hjoin]
        exact List.take_append_drop chunkSize payload
      · rw [hflags]
        simp only [List.length_cons]
        push_cast
        ring
  | case3 payload count free h1 chunkSize h2 ih =>
    intro hp hcount
    have ih' := ih hp hcount
    rw [orderedLoop]
    simp only [dif_pos h1, if_neg h2]
    have hdummy : (!DenimChunk.isDummy ⟨List.replicate chunkSize 0,
        ChunkType.Dummy.toFlags⟩) = false := by
      simp [DenimChunk.isDummy, ChunkType.toFlags]
    rw [List.filter_cons]
    rw [if_neg (by simp [hdummy])]
    exact ih'
  | case4 payload count free h1 =>
    intro hp hcount
    rw [orderedLoop]
    simp only [dif_neg h1]
    constructor
    · intro hchunk
      exact absurd hchunk hp
    · intro _
      exact ⟨[], rfl, rfl, by simp⟩

/-- Budget runs over an exhausted payload only emit Dummy chunks and keep the
pending data empty. -/
theorem chunkWithBudgets_empty_payload :
    ∀ (budgets : List Nat) (count : Int) (cs : List DenimChunk) (p' : PayloadData),
      chunkWithBudgets budgets ⟨[], count⟩ = some (cs, p') →
      (∀ c ∈ cs, c.flags = 1) ∧ p' = ⟨[], count⟩ := by
  intro budgets
  induction budgets with
  | nil =>
    intro count cs p' h
    simp only [chunkWithBudgets, Option.some.injEq, Prod.mk.injEq] at h
    exact ⟨by simp [← h.1], h.2.symm⟩
  | cons t ts ih =>
    intro count cs p' h
    rw [chunkWithBudgets] at h
    unfold createOrderedChunks at h
    by_cases ht : EMPTY_VEC_SIZE ≤ t
    · rw [if_pos ht] at h
      have hrest := orderedLoop_empty_payload [] count (t - EMPTY_VEC_SIZE) rfl
      simp only [Option.map_eq_some'] at h
      obtain ⟨⟨cs2, p2⟩, hrec, heq⟩ := h
      rw [hrest.2] at hrec
      obtain ⟨hall2, hp2⟩ := ih count cs2 p2 hrec
      obtain ⟨hcs, hp'⟩ := Prod.mk.injEq .. ▸ heq
      constructor
      · intro c hc
        rw [← hcs] at hc
        rcases List.mem_append.mp hc with hc | hc
        · exact hrest.1 c hc
        · exact hall2 c hc
      · rw [← hp']
        exact hp2
    · rw [if_neg ht] at h
      simp at h

/-- Shape of a full run of `create_ordered_chunks` invocations over a payload
queue entry: with Dummy chunks removed, the concatenated emission is the
canonical ranked Data sequence of the consumed prefix, closed by a Final
exactly when the payload was fully consumed. -/
theorem chunkWithBudgets_trace :
    ∀ (budgets : List Nat) (payload : List Nat) (count : Int)
      (cs : List DenimChunk) (p' : PayloadData),
      payload ≠ [] → count ≤ 0 →
      chunkWithBudgets budgets ⟨payload, count⟩ = some (cs, p') →
      ((p'.chunk = [] →
        ∃ parts tail, tail ≠ [] ∧
          cs.filter (fun c => !c.isDummy) = rankedChunks count parts ++ [⟨tail, 2⟩] ∧
          parts.flatten ++ tail = payload) ∧
      (p'.chunk ≠ [] →
        ∃ parts,
          cs.filter (fun c => !c.isDummy) = rankedChunks count parts ∧
          parts.flatten ++ p'.chunk = payload ∧
          p'.flags = count - parts.length)) := by
  intro budgets
  induction budgets with
  | nil =>
    intro payload count cs p' hp hcount h
    simp only [chunkWithBudgets, Option.some.injEq, Prod.mk.injEq] at h
    obtain ⟨hcs, hp'⟩ := h
    subst hcs; subst hp'
    constructor
    · intro hchunk
      exact absurd hchunk hp
    · intro _
      exact ⟨[], rfl, rfl, by simp⟩
  | cons t ts ih =>
    intro payload count cs p' hp hcount h
    rw [chunkWithBudgets] at h
    unfold createOrderedChunks at h
    by_cases ht : EMPTY_VEC_SIZE ≤ t
    · rw [if_pos ht] at h
      simp only [Option.map_eq_some'] at h
      obtain ⟨⟨cs2, p2⟩, hrec, heq⟩ := h
      obtain ⟨hcs, hp'⟩ := Prod.mk.injEq .. ▸ heq
      subst hp'
      set r := orderedLoop payload count (t - EMPTY_VEC_SIZE) with hr
      have htrace := orderedLoop_trace payload count (t - EMPTY_VEC_SIZE) hp hcount
      rw [← hr] at htrace
      by_cases hmid : r.2.2.chunk = []
      · -- the Final fell inside this envelope; the later budgets only pad
        obtain ⟨parts, tail, htail, hfilter, hjoin⟩ := htrace.1 hmid
        have hpd : r.2.2 = ⟨[], r.2.2.flags⟩ := by
          cases hpd' : r.2.2 with
          | mk c f => simp only [hpd'] at hmid; simp [hmid]
        rw [hpd] at hrec
        obtain ⟨hall2, hp2⟩ := chunkWithBudgets_empty_payload ts r.2.2.flags cs2 p2 hrec
        constructor
        · intro _
          refine ⟨parts, tail, htail, ?_, hjoin⟩
          rw [← hcs, List.filter_append, hfilter]
          have : cs2.filter (fun c => !c.isDummy) = [] := by
            rw [List.filter_eq_nil_iff]
            intro c hc
            simp [DenimChunk.isDummy, hall2 c hc]
          rw [this, List.append_nil]
        · intro hne
          rw [hp2] at hne
          exact absurd rfl hne
      · -- the payload continues into the later budgets
        obtain ⟨parts1, hfilter1, hjoin1, hflags1⟩ := htrace.2 hmid
        have hpd : r.2.2 = ⟨r.2.2.chunk, r.2.2.flags⟩ := rfl
        rw [hpd] at hrec
        have ih' := ih r.2.2.chunk r.2.2.flags cs2 p2 hmid (by omega) hrec
        constructor
        · intro hchunk
          obtain ⟨parts2, tail, htail, hfilter2, hjoin2⟩ := ih'.1 hchunk
          rw [hflags1] at hfilter2
          refine ⟨parts1 ++ parts2, tail, htail, ?_, ?_⟩
          · rw [← hcs, List.filter_append, hfilter1, hfilter2,
              rankedChunks_append parts1 count (parts2), List.append_assoc]
          · rw [List.flatten_append, List.append_assoc, hjoin2, hjoin1]
        · intro hchunk
          obtain ⟨parts2, hfilter2, hjoin2, hflags2⟩ := ih'.2 hchunk
          rw [hflags1] at hfilter2
          refine ⟨parts1 ++ parts2, ?_, ?_, ?_⟩
          · rw [← hcs, List.filter_append, hfilter1, hfilter2,
              rankedChunks_append parts1 count (parts2)]
          · rw [List.flatten_append, List.append_assoc, hjoin2, hjoin1]
          · rw [hflags2, hflags1]
            simp only [List.length_append]
            push_cast
            ring
    · rw [if_neg ht] at h
      simp at h

/-- Feeding Data chunks into the server reassembly loop just buffers them. -/
theorem cdpl_data_buffering :
    ∀ (ds pending rest : List DenimChunk), (∀ c ∈ ds, c.flags ≤ 0) →
      createDeniablePayloadsLoop pending (ds ++ rest) =
        createDeniablePayloadsLoop (pending ++ ds) rest := by
  intro ds
  induction ds with
  | nil => intro pending rest _; simp
  | cons c cs ih =>
    intro pending rest hall
    have hc : c.flags ≤ 0 := hall c (by simp)
    rw [List.cons_append, createDeniablePayloadsLoop,
      chunkTypeOfFlags_of_nonpos hc]
    rw [ih (pending ++ [c]) rest (fun d hd => hall d (by simp [hd]))]
    simp

/-- A Final chunk closes the buffer: the loop sorts the buffered chunks,
appends the Final's payload and recurses with a cleared buffer. -/
theorem cdpl_final_step :
    ∀ (pending rest : List DenimChunk) (f : DenimChunk), f.flags = 2 →
      createDeniablePayloadsLoop pending (f :: rest) =
        (createDeniablePayloadsLoop [] rest).map fun r =>
          ((((sortChunks pending).map DenimChunk.chunk).flatten ++ f.chunk) :: r.1, r.2) := by
  intro pending rest f hf
  rw [createDeniablePayloadsLoop]
  have : chunkTypeOfFlags f.flags = some .Final := by
    unfold chunkTypeOfFlags
    rw [hf]
    norm_num
  rw [this]

/-- Feeding non-final chunks into the client reassembly loop just buffers
them. -/
theorem hil_data_buffering :
    ∀ (ds buffered rest : List DenimChunk), (∀ c ∈ ds, c.isFinal = false) →
      handleIncomingChunksLoop buffered (ds ++ rest) =
        handleIncomingChunksLoop (buffered ++ ds) rest := by
  intro ds
  induction ds with
  | nil => intro buffered rest _; simp
  | cons c cs ih =>
    intro buffered rest hall
    have hc : c.isFinal = false := hall c (by simp)
    rw [List.cons_append, handleIncomingChunksLoop, if_neg (by simp [hc])]
    rw [ih (buffered ++ [c]) rest (fun d hd => hall d (by simp [hd]))]
    simp

/-- A Final chunk closes the client buffer the same way. -/
theorem hil_final_step :
    ∀ (buffered rest : List DenimChunk) (f : DenimChunk), f.isFinal = true →
      handleIncomingChunksLoop buffered (f :: rest) =
        ((((sortChunks buffered).map DenimChunk.chunk).flatten ++ f.chunk) ::
            (handleIncomingChunksLoop [] rest).1,
          (handleIncomingChunksLoop [] rest).2) := by
  intro buffered rest f hf
  rw [handleIncomingChunksLoop, if_pos hf]
  simp

/-! ### Claim theorems -/

/-- C9 (counterexample): the claim says a flag value outside {1, 2, ≤0} is
handled as a `ProtocolViolation` typed error and the conversion never aborts;
at the concrete flag 3 the conversion hits `unreachable!()` and aborts
(`none`), so no `ChunkType` — and no typed error — is ever produced. -/
theorem chunk_flag_three_aborts : chunkTypeOfFlags 3 = none := by
  unfold chunkTypeOfFlags
  norm_num

/-- C9 (amended): the flag conversion is defined exactly on {1, 2, ≤ 0} and
aborts the program (`unreachable!`, embedded as `none`) exactly on the flag
values ≥ 3; no typed error is involved. -/
theorem chunk_flag_conversion_domain (value : Int) :
    chunkTypeOfFlags value = none ↔ 3 ≤ value := by
  unfold chunkTypeOfFlags
  split_ifs with h1 h2 h3 <;> simp <;> omega

/-- C10: when an inbound DenIM envelope carries no q value,
`Client::receive_message` panics on the `expect` while reading q — for every
previously known chunker q, no fallback to it and no typed error occurs. -/
theorem receive_message_missing_q_panics (currentQ : ℚ) :
    receiveMessageSetQ currentQ none =
      .panicked "q value should always be populated by server" := rfl

/-- C6 (counterexample): the claim says an encrypt/decrypt through the
deniable stores leaves the overt channel's stores — session, identity, and
the key material they depend on — unchanged; but the deniable decrypt in
`Client::receive_message` receives the same pre-key store the overt decrypt
uses, and a library behaviour that consumes a pre-key (here: the successor
function on a store state) changes it. -/
theorem deniable_decrypt_mutates_shared_prekey_store :
    (receiveMessageDeniableDecrypt id id Nat.succ id id
        (⟨0, 0, 0, 0, 0, 0, 0⟩ : ProtocolStore Nat)).preKeyStore ≠
      (⟨0, 0, 0, 0, 0, 0, 0⟩ : ProtocolStore Nat).preKeyStore := by
  simp [receiveMessageDeniableDecrypt]

/-- C6 (amended): for every store-state type and every library behaviour, the
deniable encrypt and decrypt leave the overt session and identity stores
unchanged and the overt encrypt and decrypt leave the deniable session and
identity stores unchanged; the pre-key, signed-pre-key and Kyber-pre-key
stores, however, are shared — the deniable decrypt applies the same update to
the very pre-key store the overt decrypt reads. -/
theorem ratchet_session_identity_stores_disjoint (S : Type)
    (f g u v w : S → S) (st : ProtocolStore S) :
    (sendDeniableMessageEncrypt f g st).identityKeyStore = st.identityKeyStore ∧
    (sendDeniableMessageEncrypt f g st).sessionStore = st.sessionStore ∧
    (receiveMessageDeniableDecrypt f g u v w st).identityKeyStore = st.identityKeyStore ∧
    (receiveMessageDeniableDecrypt f g u v w st).sessionStore = st.sessionStore ∧
    (sendMessageEncrypt f g st).deniableIdentityKeyStore = st.deniableIdentityKeyStore ∧
    (sendMessageEncrypt f g st).deniableStore = st.deniableStore ∧
    (receiveMessageOvertDecrypt f g u v w st).deniableIdentityKeyStore =
      st.deniableIdentityKeyStore ∧
    (receiveMessageOvertDecrypt f g u v w st).deniableStore = st.deniableStore ∧
    (receiveMessageDeniableDecrypt f g u v w st).preKeyStore = u st.preKeyStore ∧
    (receiveMessageOvertDecrypt f g u v w st).preKeyStore = u st.preKeyStore :=
  ⟨rfl, rfl, rfl, rfl, rfl, rfl, rfl, rfl, rfl, rfl⟩

/-- C4 (code evaluation at the failing input): a 100-byte payload drained by
`Chunker::create_chunks` across three overt envelopes of budget 60 splits
into k = 2 Data chunks and one Final, but the emitted Data ranks are 0, 0 —
not 0, −1 — because `create_chunks` hard-codes `ChunkType::Data(0)`. -/
theorem create_chunks_repeats_rank_zero :
    (createChunksCalls [60, 60, 60] [List.replicate 100 7]).map
        (fun r => ((r.1.filter (fun c => !c.isDummy)).map DenimChunk.flags, r.2)) =
      some ([0, 0, 2], []) := by
  simp [createChunksCalls, createChunks, createChunksLoop, EMPTY_VEC_SIZE,
    EMPTY_DENIMCHUNK_SIZE, ChunkType.toFlags, DenimChunk.isDummy,
    List.filter_cons]

/-- C8: from the empty client state, two successive deniable sends for the
same peer enqueue exactly one KeyRequest payload, record one pending key
request, and stash both plaintexts; the inbound KeyResponse then establishes
the deniable session, empties the pending-key-request table, and enqueues the
two SignalMessage payloads in the original order. -/
theorem deniable_bootstrap_state_machine (serviceId nickname t1 t2 : String) :
    ∃ st2 st3 : ClientState,
      (sendDeniable ⟨[], [], [], [], []⟩ serviceId t1 nickname).bind
          (fun st => sendDeniable st serviceId t2 nickname) = some st2 ∧
      st2.deniablePayloads = [.keyRequest serviceId] ∧
      st2.keyRequestsSent = [(serviceId, nickname)] ∧
      st2.messagesAwaitingEncryption = [(t1, nickname), (t2, nickname)] ∧
      receiveKeyResponse st2 serviceId = some st3 ∧
      st3.deniableSessions = [serviceId] ∧
      st3.keyRequestsSent = [] ∧
      st3.deniablePayloads =
        [.keyRequest serviceId, .signalMessage serviceId t1,
         .signalMessage serviceId t2] := by
  refine ⟨⟨[.keyRequest serviceId], [(serviceId, nickname)],
      [(t1, nickname), (t2, nickname)], [], []⟩,
    ⟨[.keyRequest serviceId, .signalMessage serviceId t1,
        .signalMessage serviceId t2], [],
      [(t1, nickname), (t2, nickname)], [serviceId], [(nickname, serviceId)]⟩,
    ?_, rfl, rfl, rfl, ?_, rfl, rfl, rfl⟩
  · simp [sendDeniable, addDeniableContactAndQueueMessage, tryGetKeyRequestSent,
      List.find?]
  · simp [receiveKeyResponse, tryGetKeyRequestSent, addContact, drainAwaiting,
      sendDeniableMessageEnqueue, List.find?, List.filter]

/-- C1 (client half): every DenIM envelope built by `Client::send_message`
satisfies the q-budget identity — the serialized size of its chunk list plus
the length of its ballast equals ⌈|overt payload| · q⌉ exactly. -/
theorem client_send_message_q_budget_exact (q size : ℚ) (buf : List (List Nat))
    (m : DenimMessage) (buf' : List (List Nat))
    (h : clientSendMessageEnvelope (totalFreeSpace q size) buf = some (m, buf')) :
    serializedChunksSize m.chunks + m.ballast.length = totalFreeSpace q size := by
  unfold clientSendMessageEnvelope createChunks at h
  by_cases ht : EMPTY_VEC_SIZE ≤ totalFreeSpace q size
  · rw [if_pos ht] at h
    simp only [Option.map_some', Option.some.injEq] at h
    have hm : m = ⟨(createChunksLoop buf (totalFreeSpace q size - EMPTY_VEC_SIZE)).1,
        none, List.replicate
          (createChunksLoop buf (totalFreeSpace q size - EMPTY_VEC_SIZE)).2.1 0⟩ :=
      (congrArg Prod.fst h).symm
    have hbudget := createChunksLoop_budget buf (totalFreeSpace q size - EMPTY_VEC_SIZE)
    rw [hm]
    simp only [serializedChunksSize, List.length_replicate]
    omega
  · rw [if_neg ht] at h
    simp at h

/-- C1 (witness): at q = 1 and a 30-byte overt payload with an empty outgoing
buffer, the client emits one 10-byte Dummy chunk and no ballast, and
20 + 10 + 0 = 30 = ⌈30 · 1⌉. -/
theorem client_send_message_q_budget_exact_witness :
    serializedChunksSize [⟨List.replicate 10 0, 1⟩] + ([] : List Nat).length =
      totalFreeSpace 1 30 := by
  have htf : totalFreeSpace 1 30 = 30 := by
    unfold totalFreeSpace
    have hc : (⌈(30 : ℚ) * 1⌉ : ℤ) = 30 := by norm_num
    rw [hc]
    rfl
  have heval : clientSendMessageEnvelope (totalFreeSpace 1 30) [] =
      some (⟨[⟨List.replicate 10 0, 1⟩], none, []⟩, []) := by
    rw [htf]
    simp [clientSendMessageEnvelope, createChunks, createChunksLoop,
      EMPTY_VEC_SIZE, EMPTY_DENIMCHUNK_SIZE, ChunkType.toFlags]
  exact client_send_message_q_budget_exact 1 30 [] _ _ heval

/-- C1 (counterexample, server half): `DenIMManager::create_denim_message`
attaches an empty ballast and only the raw dequeued chunks, so the emitted
envelope violates the q-budget identity — with an empty payload queue at
q = 1 and a 30-byte overt envelope, the chunk list serializes to 8 bytes and
the ballast is empty, but ⌈30 · 1⌉ = 30. -/
theorem server_create_denim_message_budget_violation :
    serverCreateDenimMessage 1 30 ⟨[], false⟩ =
      some (⟨[], some 1, []⟩, ⟨[], false⟩) ∧
    serializedChunksSize [] + ([] : List Nat).length = EMPTY_VEC_SIZE ∧
    totalFreeSpace 1 30 = 30 ∧
    EMPTY_VEC_SIZE ≠ 30 := by
  have htf : totalFreeSpace 1 30 = 30 := by
    unfold totalFreeSpace
    have hc : (⌈(30 : ℚ) * 1⌉ : ℤ) = 30 := by norm_num
    rw [hc]
    rfl
  refine ⟨?_, by simp [serializedChunksSize], htf, by simp [EMPTY_VEC_SIZE]⟩
  unfold serverCreateDenimMessage
  rw [htf]
  simp [takeValues, dequeueBytes, getFirst, ChunkType.toFlags]

/-- C5: the postcondition of `dequeue_bytes` — a lock or an empty queue
yields `(empty, 0, Dummy)` with the queue untouched; a request shorter than
the head rewrites the head to its tail with the rank advanced by −1 and
returns the taken prefix under the head's (old) rank as a Data flag; a
request covering the head removes the entry and returns all of it under the
Final flag.  (Entry ids are unique by construction — the store allocates
them from a strictly increasing counter.) -/
theorem dequeue_bytes_postcondition (queue : RQueue) (n : Nat) :
    ((queue.locked = true ∨ queue.entries = []) →
      dequeueBytes queue n = some (([], 0, 1), queue)) ∧
    (∀ (e : RedisEntry) (ts : List RedisEntry),
      queue.locked = false → queue.entries = e :: ts →
      (∀ o ∈ ts, o.id ≠ e.id) →
      ((n < e.payload.length →
        dequeueBytes queue n =
          some ((e.payload.take n, n, e.rank),
            ⟨⟨e.id, e.payload.drop n, e.rank - 1⟩ :: ts, false⟩)) ∧
      (e.payload.length ≤ n →
        dequeueBytes queue n =
          some ((e.payload, e.payload.length, 2), ⟨ts, false⟩)))) := by
  obtain ⟨entries, locked⟩ := queue
  constructor
  · rintro (h | h)
    · simp only at h
      subst h
      simp [dequeueBytes, getFirst, ChunkType.toFlags]
    · simp only at h
      subst h
      cases locked <;> simp [dequeueBytes, getFirst, ChunkType.toFlags]
  · intro e ts hlock hentries hids
    simp only at hlock hentries
    subst hlock
    subst hentries
    have hfirst : getFirst ⟨e :: ts, false⟩ = some e := by
      simp [getFirst]
    have hmapts : ts.map (fun o => if o.id == e.id then
        (⟨e.id, e.payload.drop n, e.rank - 1⟩ : RedisEntry) else o) = ts := by
      rw [List.map_congr_left (g := id) ?_, List.map_id]
      intro o ho
      have : (o.id == e.id) = false := by
        simp only [beq_eq_false_iff_ne, ne_eq]
        exact hids o ho
      simp [this]
    have hupd : updateValue ⟨e :: ts, false⟩ e.id (e.payload.drop n) =
        some (⟨⟨e.id, e.payload.drop n, e.rank - 1⟩ :: ts, false⟩, e.rank) := by
      unfold updateValue
      rw [List.find?_cons_of_pos _ (by simp)]
      simp only [List.map_cons, beq_self_eq_true, if_true, hmapts]
    constructor
    · intro hlt
      unfold dequeueBytes
      rw [hfirst]
      dsimp only
      rw [if_pos hlt, hupd]
      simp [List.length_take, Nat.min_eq_left (le_of_lt hlt), ChunkType.toFlags]
    · intro hge
      unfold dequeueBytes
      rw [hfirst]
      dsimp only
      rw [if_neg (not_lt.mpr hge)]
      unfold removeEntry
      have hfilter_out : (e :: ts).filter (fun o => !(o.id == e.id)) = ts := by
        rw [List.filter_cons, if_neg (by simp)]
        refine List.filter_eq_self.mpr ?_
        intro o ho
        simp only [Bool.not_eq_true', beq_eq_false_iff_ne, ne_eq]
        exact hids o ho
      have hfilter_in : (e :: ts).filter (fun o => o.id == e.id) = [e] := by
        rw [List.filter_cons, if_pos (by simp)]
        have : ts.filter (fun o => o.id == e.id) = [] := by
          refine List.filter_eq_nil_iff.mpr ?_
          intro o ho
          simp only [beq_eq_false_iff_ne, ne_eq, Bool.not_eq_true]
          simp [hids o ho]
        rw [this]
      simp only [hfilter_out, hfilter_in, List.map_cons, List.map_nil,
        List.flatten_cons, List.flatten_nil, List.append_nil, ChunkType.toFlags]

/-- C5 (witness): on the singleton queue holding entry 1 with bytes
`[5, 6, 7]` at rank 0 — a 2-byte request splits the head (returning rank 0
and leaving the tail at rank −1), a 5-byte request drains it (Final), and the
locked queue returns the empty Dummy result unchanged. -/
theorem dequeue_bytes_postcondition_witness :
    dequeueBytes ⟨[⟨1, [5, 6, 7], 0⟩], false⟩ 2 =
      some (([5, 6], 2, 0), ⟨[⟨1, [7], -1⟩], false⟩) ∧
    dequeueBytes ⟨[⟨1, [5, 6, 7], 0⟩], false⟩ 5 =
      some (([5, 6, 7], 3, 2), ⟨[], false⟩) ∧
    dequeueBytes ⟨[⟨1, [5, 6, 7], 0⟩], true⟩ 5 =
      some (([], 0, 1), ⟨[⟨1, [5, 6, 7], 0⟩], true⟩) := by
  refine ⟨?_, ?_, ?_⟩
  · have h := ((dequeue_bytes_postcondition ⟨[⟨1, [5, 6, 7], 0⟩], false⟩ 2).2
      ⟨1, [5, 6, 7], 0⟩ [] rfl rfl (by simp)).1 (by simp)
    simpa using h
  · have h := ((dequeue_bytes_postcondition ⟨[⟨1, [5, 6, 7], 0⟩], false⟩ 5).2
      ⟨1, [5, 6, 7], 0⟩ [] rfl rfl (by simp)).2 (by simp)
    simpa using h
  · exact (dequeue_bytes_postcondition ⟨[⟨1, [5, 6, 7], 0⟩], true⟩ 5).1 (Or.inl rfl)

/-- C3: in both reassembly operations — the server's
`create_deniable_payloads` and the client's `handle_incoming_chunks` loop —
every Final chunk closes the payload by sorting the previously buffered
chunks by flag rank (rank 0 first, then −1, −2, …), concatenating their
payloads in that order followed by the Final's payload; buffered chunks
never terminated by a Final remain as the leftover chunks. -/
theorem reassembly_sorts_by_rank_and_keeps_leftovers :
    (∀ (pending ds rest : List DenimChunk) (f : DenimChunk),
      (∀ c ∈ ds, c.flags ≤ 0) → f.flags = 2 →
      createDeniablePayloadsLoop pending (ds ++ f :: rest) =
        (createDeniablePayloadsLoop [] rest).map fun r =>
          ((((sortChunks (pending ++ ds)).map DenimChunk.chunk).flatten ++ f.chunk) :: r.1,
            r.2)) ∧
    (∀ (pending ds : List DenimChunk), (∀ c ∈ ds, c.flags ≤ 0) →
      createDeniablePayloadsLoop pending ds = some ([], pending ++ ds)) ∧
    (∀ (buffered ds rest : List DenimChunk) (f : DenimChunk),
      (∀ c ∈ ds, c.isFinal = false) → f.isFinal = true →
      handleIncomingChunksLoop buffered (ds ++ f :: rest) =
        ((((sortChunks (buffered ++ ds)).map DenimChunk.chunk).flatten ++ f.chunk) ::
            (handleIncomingChunksLoop [] rest).1,
          (handleIncomingChunksLoop [] rest).2)) ∧
    (∀ (buffered ds : List DenimChunk), (∀ c ∈ ds, c.isFinal = false) →
      handleIncomingChunksLoop buffered ds = ([], buffered ++ ds)) := by
  refine ⟨?_, ?_, ?_, ?_⟩
  · intro pending ds rest f hds hf
    rw [cdpl_data_buffering ds pending (f :: rest) hds, cdpl_final_step _ rest f hf]
  · intro pending ds hds
    have h := cdpl_data_buffering ds pending [] hds
    rw [List.append_nil] at h
    rw [h]
    rfl
  · intro buffered ds rest f hds hf
    rw [hil_data_buffering ds buffered (f :: rest) hds, hil_final_step _ rest f hf]
  · intro buffered ds hds
    have h := hil_data_buffering ds buffered [] hds
    rw [List.append_nil] at h
    rw [h]
    rfl

/-- C3 (witness): reassembling the out-of-order Data chunks `[5]` at rank −1
and `[4]` at rank 0 followed by the Final `[6]` sorts rank 0 first and yields
the payload bytes `[4, 5, 6]`; a lone unterminated Data chunk is returned as
leftover. -/
theorem reassembly_sorts_by_rank_witness :
    createDeniablePayloadsLoop [] ([⟨[5], -1⟩, ⟨[4], 0⟩] ++ ⟨[6], 2⟩ :: []) =
      some ([[4, 5, 6]], []) ∧
    handleIncomingChunksLoop [] [⟨[9], 0⟩] = ([], [⟨[9], 0⟩]) := by
  constructor
  · have h := reassembly_sorts_by_rank_and_keeps_leftovers.1 []
      [⟨[5], -1⟩, ⟨[4], 0⟩] [] ⟨[6], 2⟩
      (by intro c hc; fin_cases hc <;> decide) rfl
    rw [h]
    have hsort : sortChunks ([] ++ [⟨[5], -1⟩, ⟨[4], 0⟩]) = [⟨[4], 0⟩, ⟨[5], -1⟩] := by
      simp [sortChunks, List.insertionSort, List.orderedInsert, chunkOrder]
    rw [hsort]
    rfl
  · have h := reassembly_sorts_by_rank_and_keeps_leftovers.2.2.2 [] [⟨[9], 0⟩]
      (by intro c hc; fin_cases hc <;> decide)
    simpa using h

/-- C2 (amended): for every q and every sequence of nonempty payloads chunked
to completion (each payload's pending data fully consumed by its run of
`create_ordered_chunks` invocations over the envelopes' q-budgets), the
chunks concatenated in emission order with Dummy chunks removed reassemble to
exactly the payloads in order, with no leftover chunks. -/
theorem chunked_queue_round_trip (q : ℚ) (ps : List (List Nat))
    (cs : List DenimChunk) (h : ChunkedQueue q ps cs) :
    createDeniablePayloads (cs.filter (fun c => !c.isDummy)) = some (ps, []) := by
  induction h with
  | nil => rfl
  | @cons payload sizes cs1 pending ps1 rest hp hbud hpend hrest ih =>
    obtain ⟨parts, tail, htail, hfilter, hjoin⟩ :=
      (chunkWithBudgets_trace (sizes.map (totalFreeSpace q)) payload 0 cs1 pending
        hp le_rfl hbud).1 hpend
    unfold createDeniablePayloads at ih ⊢
    rw [List.filter_append, hfilter, List.append_assoc, List.singleton_append]
    rw [cdpl_data_buffering (rankedChunks 0 parts) []
      (⟨tail, 2⟩ :: rest.filter (fun c => !c.isDummy))
      (fun c hc => rankedChunks_flags_le parts 0 c hc)]
    rw [List.nil_append]
    rw [cdpl_final_step (rankedChunks 0 parts) (rest.filter (fun c => !c.isDummy))
      ⟨tail, 2⟩ rfl]
    rw [ih]
    simp only [Option.map_some', Option.some.injEq, Prod.mk.injEq, and_true]
    rw [sortChunks_ranked 0 parts, rankedChunks_map_chunk 0 parts]
    simp [hjoin]

/-- C2 (witness): the 13-byte payload fits one envelope whose q-budget is 33,
so its single Final chunk reassembles the payload exactly. -/
theorem chunked_queue_round_trip_witness :
    createDeniablePayloads
        ((([⟨List.replicate 13 1, 2⟩] ++ []) : List DenimChunk).filter
          (fun c => !c.isDummy)) =
      some ([List.replicate 13 1], []) := by
  have h33 : totalFreeSpace 1 33 = 33 := by
    unfold totalFreeSpace
    have hc : (⌈(33 : ℚ) * 1⌉ : ℤ) = 33 := by norm_num
    rw [hc]
    rfl
  have hbud : chunkWithBudgets (List.map (totalFreeSpace 1) [33])
      ⟨List.replicate 13 1, 0⟩ =
      some ([⟨List.replicate 13 1, 2⟩], ⟨[], 0⟩) := by
    simp only [List.map_cons, List.map_nil, h33]
    simp [chunkWithBudgets, createOrderedChunks, orderedLoop, EMPTY_VEC_SIZE,
      EMPTY_DENIMCHUNK_SIZE, ChunkType.toFlags]
  have hq : ChunkedQueue 1 [List.replicate 13 1] ([⟨List.replicate 13 1, 2⟩] ++ []) :=
    ChunkedQueue.cons (by simp) hbud rfl ChunkedQueue.nil
  exact chunked_queue_round_trip 1 [List.replicate 13 1]
    ([⟨List.replicate 13 1, 2⟩] ++ []) hq

/-- C2 (counterexample): the claim's budget premise is insufficient.  For the
single 13-byte payload, q = 1 and the single overt envelope size 20, the
combined q-budget ⌈20 · 1⌉ = 20 is at least the 13 payload bytes, yet the
serialization overheads leave room for nothing but one empty Dummy chunk:
after the invocation the whole payload is still pending, and the emitted
chunks with Dummies removed reassemble to no payloads at all. -/
theorem q_budget_premise_insufficient :
    totalFreeSpace 1 20 = 20 ∧
    (List.replicate 13 (1 : Nat)).length ≤ 20 ∧
    chunkWithBudgets [totalFreeSpace 1 20] ⟨List.replicate 13 1, 0⟩ =
      some ([⟨[], 1⟩], ⟨List.replicate 13 1, 0⟩) ∧
    createDeniablePayloads
        (([⟨[], 1⟩] : List DenimChunk).filter (fun c => !c.isDummy)) =
      some ([], []) ∧
    ([] : List (List Nat)) ≠ [List.replicate 13 1] := by
  have h20 : totalFreeSpace 1 20 = 20 := by
    unfold totalFreeSpace
    have hc : (⌈(20 : ℚ) * 1⌉ : ℤ) = 20 := by norm_num
    rw [hc]
    rfl
  refine ⟨h20, by simp, ?_, ?_, by simp⟩
  · rw [h20]
    simp [chunkWithBudgets, createOrderedChunks, orderedLoop, EMPTY_VEC_SIZE,
      EMPTY_DENIMCHUNK_SIZE, ChunkType.toFlags]
  · simp [createDeniablePayloads, createDeniablePayloadsLoop, DenimChunk.isDummy]

theorem queueOf_enqueueAt_same (qs : PayloadQueues) (key : String × Nat)
    (ps : List SDeniablePayload) :
    queueOf (enqueueAt qs key ps) key = queueOf qs key ++ ps := by
  induction qs with
  | nil => simp [enqueueAt, queueOf]
  | cons e rest ih =>
    obtain ⟨k, existing⟩ := e
    by_cases hk : k = key
    · rw [enqueueAt, if_pos hk, queueOf, if_pos hk, queueOf, if_pos hk]
    · rw [enqueueAt, if_neg hk, queueOf, if_neg hk, queueOf, if_neg hk]
      exact ih

theorem queueOf_enqueueAt_other (qs : PayloadQueues) (key key' : String × Nat)
    (ps : List SDeniablePayload) (h : key' ≠ key) :
    queueOf (enqueueAt qs key ps) key' = queueOf qs key' := by
  induction qs with
  | nil =>
    show queueOf [(key, ps)] key' = queueOf [] key'
    rw [show queueOf [(key, ps)] key' =
        if key = key' then ps else queueOf [] key' from rfl]
    rw [if_neg (fun hx => h hx.symm)]
  | cons e rest ih =>
    obtain ⟨k, existing⟩ := e
    by_cases hk : k = key
    · have hk' : ¬ k = key' := fun hx => h (hx.symm.trans hk)
      rw [enqueueAt, if_pos hk, queueOf, if_neg hk', queueOf, if_neg hk']
    · rw [enqueueAt, if_neg hk, queueOf, queueOf]
      by_cases hk' : k = key'
      · rw [if_pos hk', if_pos hk']
      · rw [if_neg hk', if_neg hk']
        exact ih

theorem queueOf_foldl_enqueue_other (devices : List Nat) :
    ∀ (sid : String) (ps : List SDeniablePayload) (qs : PayloadQueues)
      (key : String × Nat), (∀ d ∈ devices, key ≠ (sid, d)) →
      queueOf (devices.foldl (fun acc d => enqueueAt acc (sid, d) ps) qs) key =
        queueOf qs key := by
  induction devices with
  | nil => intro sid ps qs key _; rfl
  | cons d0 rest ih =>
    intro sid ps qs key hkey
    rw [List.foldl_cons]
    rw [ih sid ps _ key (fun d hd => hkey d (by simp [hd]))]
    exact queueOf_enqueueAt_other qs (sid, d0) key ps (hkey d0 (by simp))

theorem queueOf_foldl_enqueue_mem (devices : List Nat) :
    ∀ (sid : String) (ps : List SDeniablePayload) (qs : PayloadQueues) (d : Nat),
      devices.Nodup → d ∈ devices →
      queueOf (devices.foldl (fun acc d' => enqueueAt acc (sid, d') ps) qs) (sid, d) =
        queueOf qs (sid, d) ++ ps := by
  induction devices with
  | nil => intro sid ps qs d _ hd; simp at hd
  | cons d0 rest ih =>
    intro sid ps qs d hnd hd
    have hnd0 : d0 ∉ rest := (List.nodup_cons.mp hnd).1
    have hndr : rest.Nodup := (List.nodup_cons.mp hnd).2
    rw [List.foldl_cons]
    rcases List.mem_cons.mp hd with rfl | hdr
    · rw [queueOf_foldl_enqueue_other rest sid ps _ (sid, d)
        (fun d' hd' heq => by cases heq; exact hnd0 hd')]
      exact queueOf_enqueueAt_same qs (sid, d) ps
    · rw [ih sid ps _ d hndr hdr]
      have hne : d ≠ d0 := fun he => hnd0 (he ▸ hdr)
      rw [queueOf_enqueueAt_other qs (sid, d0) (sid, d) ps (by simp [hne])]

/-- C7: the server routing of reassembled deniable payloads — a
`KeyRequest(target)` resolves a prekey bundle for the target and enqueues the
resulting `KeyResponse` into the SENDER's own receiver-role outgoing payload
buffer on every one of the sender's devices, leaving every other account's
buffers (in particular the target's) untouched; a reassembled
`SignalMessage` is wrapped as an Envelope and enqueued into the destination
account's receiver-role buffer on every one of that account's devices,
leaving every other account's buffers untouched. -/
theorem server_routes_key_request_and_signal_message :
    (∀ (sender : SAccount) (target : String) (resolveBundle : String → Nat)
       (lookupAccount : String → Option SAccount) (qs qs' : PayloadQueues),
       sender.devices.Nodup →
       handleReceivingChunksRoute sender resolveBundle lookupAccount qs
         [.keyRequest target] = some qs' →
       (∀ d ∈ sender.devices,
         queueOf qs' (sender.serviceId, d) =
           queueOf qs (sender.serviceId, d) ++
             [.keyResponse (resolveBundle target)]) ∧
       (∀ (sid : String) (d : Nat), sid ≠ sender.serviceId →
         queueOf qs' (sid, d) = queueOf qs (sid, d))) ∧
    (∀ (sender destAcc : SAccount) (dst : String) (content : List Nat)
       (resolveBundle : String → Nat) (lookupAccount : String → Option SAccount)
       (qs qs' : PayloadQueues),
       destAcc.devices.Nodup →
       lookupAccount dst = some destAcc →
       handleReceivingChunksRoute sender resolveBundle lookupAccount qs
         [.signalMessage (some dst) content] = some qs' →
       (∀ d ∈ destAcc.devices,
         queueOf qs' (destAcc.serviceId, d) =
           queueOf qs (destAcc.serviceId, d) ++
             [.envelope sender.serviceId content]) ∧
       (∀ (sid : String) (d : Nat), sid ≠ destAcc.serviceId →
         queueOf qs' (sid, d) = queueOf qs (sid, d))) := by
  constructor
  · intro sender target resolveBundle lookupAccount qs qs' hnd h
    unfold handleReceivingChunksRoute routePayloads at h
    simp only [routePayloads, pushPayload, Option.map_some', Option.some.injEq] at h
    subst h
    unfold distributePayloads distributePayloads
    constructor
    · intro d hd
      exact queueOf_foldl_enqueue_mem sender.devices sender.serviceId _ qs d hnd hd
    · intro sid d hsid
      exact queueOf_foldl_enqueue_other sender.devices sender.serviceId _ qs (sid, d)
        (fun d' _ => by simp [hsid])
  · intro sender destAcc dst content resolveBundle lookupAccount qs qs' hnd hla h
    unfold handleReceivingChunksRoute routePayloads at h
    dsimp only at h
    rw [hla] at h
    simp only [routePayloads, pushPayload, Option.map_some', Option.some.injEq] at h
    subst h
    unfold distributePayloads distributePayloads
    constructor
    · intro d hd
      exact queueOf_foldl_enqueue_mem destAcc.devices destAcc.serviceId _ qs d hnd hd
    · intro sid d hsid
      exact queueOf_foldl_enqueue_other destAcc.devices destAcc.serviceId _ qs (sid, d)
        (fun d' _ => by simp [hsid])

/-- C7 (witness): with sender account alice on devices 1 and 2 requesting
keys for bob, the KeyResponse ends up in alice's own buffers on both devices
and bob's buffer stays empty. -/
theorem server_routes_key_request_witness :
    queueOf [(("alice", 1), [.keyResponse 7]), (("alice", 2), [.keyResponse 7])]
        ("alice", 2) =
      queueOf ([] : PayloadQueues) ("alice", 2) ++ [.keyResponse 7] ∧
    queueOf [(("alice", 1), [.keyResponse 7]), (("alice", 2), [.keyResponse 7])]
        ("bob", 1) =
      queueOf ([] : PayloadQueues) ("bob", 1) := by
  have heval : handleReceivingChunksRoute ⟨"alice", [1, 2]⟩ (fun _ => 7)
      (fun _ => none) [] [.keyRequest "bob"] =
      some [(("alice", 1), [.keyResponse 7]), (("alice", 2), [.keyResponse 7])] := by
    simp [handleReceivingChunksRoute, routePayloads, pushPayload,
      distributePayloads, enqueueAt]
  obtain ⟨h1, h2⟩ := server_routes_key_request_and_signal_message.1
    ⟨"alice", [1, 2]⟩ "bob" (fun _ => 7) (fun _ => none) []
    [(("alice", 1), [.keyResponse 7]), (("alice", 2), [.keyResponse 7])]
    (by simp) heval
  exact ⟨h1 2 (by simp), h2 "bob" 1 (by simp)⟩

end Denim
